import Mathlib

/-!
Verification of the t2 rules engine (src/xs.js): a shallow embedding of the
deterministic Coup-style state machine, its guards, context mutations and the
seeded shuffle, together with proofs of the specified invariants.
-/

namespace T2

abbrev Role := String
abbrev Seed := List Nat

def UINT32_MAX : Nat := 2 ^ 32 - 1

/-- Modelled from the spec: the raw 32-bit generator behind `pure-random`'s
`randUint` is an external collaborator, not part of this repository (spec §1:
"A random-number source is a collaborator supplied by configuration"; §4.1:
the seed is a 4-tuple of u32 and the generator is deterministic).  The
definitions below are parameterised over any such function `ru`; this concrete
instance (an LCG-style mix reduced mod 2^32, hence always a u32) stands in for
`pure-random` in the executable machine. -/
def randUint (seed : Seed) : Nat :=
  (seed.foldl (fun a x => a * 1664525 + x + 1013904223) 97) % (2 ^ 32)

-- Rand._nextSeed: R.append(randUint(seed), R.slice(1, 4, seed))
def nextSeed (ru : Seed → Nat) (s : Seed) : Seed :=
  (s.drop 1).take 3 ++ [ru s]

-- Rand._random(seed, min, max) = Math.round(min + randUint(seed)/UINT32_MAX * (max-min)).
-- The JS expression is an exact rational rounded half-up; for lo ≤ hi and
-- u : Nat this equals lo + ⌊(2*u*(hi-lo) + UINT32_MAX) / (2*UINT32_MAX)⌋.
def randRange (u lo hi : Nat) : Nat :=
  lo + (2 * u * (hi - lo) + UINT32_MAX) / (2 * UINT32_MAX)

-- Ramda's R.adjust(idx, f): applies f at index idx, returns the list unchanged
-- when idx is out of range.
def adjustAt (i : Nat) (f : α → α) (l : List α) : List α :=
  match l.get? i with
  | some x => l.set i (f x)
  | none => l

-- Ramda's R.findIndex (with none for -1).
def findIdxA (p : α → Bool) : List α → Option Nat
  | [] => none
  | x :: xs => if p x then some 0 else (findIdxA p xs).map (· + 1)

/-- Rand.shuffle, a recursive draw-without-replacement: draw index i uniformly
from [0, n-1], prepend list[i], recurse on the list with index i removed,
threading the seed.  The source recursion terminates because each step removes
one element; the fuel argument (instantiated with the list length) encodes
exactly that measure. -/
def shuffleAux (ru : Seed → Nat) : Nat → List Role → Seed → List Role × Seed
  | 0, l, s => (l, s)
  | fuel + 1, l, s =>
    if l.length ≤ 1 then (l, s)
    else
      let i := randRange (ru s) 0 (l.length - 1)
      let s1 := nextSeed ru s
      let r := shuffleAux ru fuel (l.eraseIdx i) s1
      (l.getD i "" :: r.1, r.2)

def shuffle (ru : Seed → Nat) (l : List Role) (s : Seed) : List Role × Seed :=
  shuffleAux ru l.length l s

---- Player

structure Influence where
  role : Role
  revealed : Bool
deriving DecidableEq

structure Player where
  cash : Int
  influence : List Influence
deriving DecidableEq

-- Player.countInf: R.reject(R.propEq('revealed', true)) then length.
def Player.countInf (p : Player) : Nat :=
  (p.influence.filter (fun inf => !inf.revealed)).length

def Player.hasNInf (n : Nat) (p : Player) : Bool :=
  decide (Player.countInf p = n)

def Player.isDead (p : Player) : Bool :=
  Player.hasNInf 0 p

def Player.adjustCash (dcash : Int) (p : Player) : Player :=
  { p with cash := p.cash + dcash }

def Player.revealRole (role : Role) (p : Player) : Except String Player :=
  match findIdxA (fun inf => decide (inf = ⟨role, false⟩)) p.influence with
  | none => .error s!"Player does not have role {role}"
  | some i => .ok { p with influence := adjustAt i (fun inf => { inf with revealed := true }) p.influence }

def Player.unrevealRole (role : Role) (p : Player) : Except String Player :=
  match findIdxA (fun inf => decide (inf = ⟨role, true⟩)) p.influence with
  | none => .error s!"Player does not have role {role}"
  | some i => .ok { p with influence := adjustAt i (fun inf => { inf with revealed := false }) p.influence }

-- Player.getFirstRole: role of the first unrevealed influence (undefined when none).
def Player.getFirstRole (p : Player) : Option Role :=
  (p.influence.find? (fun inf => !inf.revealed)).map (fun inf => inf.role)

-- Player.swapRole_s: replace the role of the first (oldRole, unrevealed) slot.
def Player.swapRole (oldRole newRole : Role) (p : Player) : Except String Player :=
  match findIdxA (fun inf => decide (inf = ⟨oldRole, false⟩)) p.influence with
  | none => .error s!"Player does not have role {oldRole}"
  | some i => .ok { p with influence := adjustAt i (fun inf => { inf with role := newRole }) p.influence }

---- GameDef

structure ActionDef where
  cost : Nat
  gain : Nat
  roles : List Role
  blockedBy : List Role
  targeted : Bool
deriving DecidableEq

-- The per-action table built in the GameDef constructor.  It is independent of
-- the configured role set.  `cost`/`gain` absent in the source map to 0
-- (getCost reads `cost || 0`; `gain` is never read by the engine), absent
-- `roles`/`blockedBy` map to [] (R.flatten([x || []])), absent `targeted` is
-- falsy.
def actionsTable : String → Option ActionDef
  | "coup" => some ⟨7, 0, [], [], true⟩
  | "income" => some ⟨0, 1, [], [], false⟩
  | "foreign-aid" => some ⟨0, 2, [], ["duke"], false⟩
  | "tax" => some ⟨0, 3, ["duke"], [], false⟩
  | "assassinate" => some ⟨3, 0, ["assassin"], ["contessa"], true⟩
  | "steal" => some ⟨0, 0, ["captain"], ["captain", "ambassador", "inquisitor"], true⟩
  | "exchange" => some ⟨0, 0, ["ambassador", "inquisitor"], [], false⟩
  | "interrogate" => some ⟨0, 0, ["inquisitor"], [], true⟩
  | _ => none

structure GameDef where
  roles : List Role
deriving DecidableEq

def GameDef.isValidRole (d : GameDef) (role : Role) : Bool :=
  d.roles.contains role

def GameDef.isValidAction (_d : GameDef) (action : String) : Bool :=
  (actionsTable action).isSome

-- For an unknown action the JS source would fault reading a field of
-- undefined; every caller is guarded by isValidAction, and the [] / 0 / false
-- defaults below are never observable on those guarded paths.
def GameDef.getRequiredRoles (_d : GameDef) (action : String) : List Role :=
  match actionsTable action with
  | some ad => ad.roles
  | none => []

def GameDef.getBlockingRoles (_d : GameDef) (action : String) : List Role :=
  match actionsTable action with
  | some ad => ad.blockedBy
  | none => []

def GameDef.isRoleRequired (d : GameDef) (action : String) : Bool :=
  !(d.getRequiredRoles action).isEmpty

def GameDef.isBlockable (d : GameDef) (action : String) : Bool :=
  !(d.getBlockingRoles action).isEmpty

def GameDef.isBlockedBy (d : GameDef) (action : String) (role : Role) : Bool :=
  (d.getBlockingRoles action).contains role

def GameDef.ifRoleAllowsAction (d : GameDef) (role : Role) (action : String) : Bool :=
  (d.getRequiredRoles action).contains role

def GameDef.isTargeted (_d : GameDef) (action : String) : Bool :=
  match actionsTable action with
  | some ad => ad.targeted
  | none => false

def GameDef.getCost (_d : GameDef) (action : String) : Nat :=
  match actionsTable action with
  | some ad => ad.cost
  | none => 0

def GameDef.makeDeck (d : GameDef) : List Role :=
  d.roles.flatMap (fun r => List.replicate 3 r)

def defaultRoles : List Role :=
  ["duke", "assassin", "captain", "ambassador", "contessa"]

---- Context

/-- The xstate machine context.  Numbers that are player indices in JS are
Nat here; the JS nulls are `none`.  (`def` is a Lean keyword, hence `gdef`.) -/
structure Context where
  whoseTurn : Nat
  players : List Player
  deck : List Role
  seed : Seed
  currentAction : Option String
  target : Option Nat
  blocker : Option Nat
  challenger : Option Nat
  revealer : Option Nat
  revealedRole : Option Role
  gdef : GameDef
deriving DecidableEq

-- Player.lens(idx) getter: context.players[idx].  Indexing out of range is
-- undefined in JS and never happens on guarded paths; getD supplies a dummy.
def ctxPlayer (ctx : Context) (idx : Nat) : Player :=
  ctx.players.getD idx ⟨0, []⟩

-- Player.lens(idx) setter: R.update(idx, player, players); R.update out of
-- range leaves the list unchanged, exactly like List.set.
def ctxSetPlayer (ctx : Context) (idx : Nat) (p : Player) : Context :=
  { ctx with players := ctx.players.set idx p }

---- Game

def Game.isOver (ctx : Context) : Bool :=
  decide ((ctx.players.filter (fun p => !Player.isDead p)).length = 1)

def Game.playerCanAffordAction (idx : Nat) (action : String) (ctx : Context) : Bool :=
  decide ((ctx.gdef.getCost action : Int) ≤ (ctxPlayer ctx idx).cash)

def Game.playerHasNInf (idx n : Nat) (ctx : Context) : Bool :=
  Player.hasNInf n (ctxPlayer ctx idx)

def Game.playerHasRole (idx : Nat) (role : Role) (ctx : Context) : Bool :=
  (ctxPlayer ctx idx).influence.any (fun inf => !inf.revealed && decide (inf.role = role))

-- Game.applyRevealAction: R.assoc('revealer', context.target, context)
def Game.applyRevealAction (ctx : Context) : Context :=
  { ctx with revealer := ctx.target }

/-- Game.applyAction is an R.cond with four arms; when no arm matches (coup,
steal, exchange, interrogate) R.cond yields undefined, modelled as `none`. -/
def Game.applyAction (ctx : Context) : Option Context :=
  if ctx.currentAction = some "income" then
    some (ctxSetPlayer ctx ctx.whoseTurn (Player.adjustCash 1 (ctxPlayer ctx ctx.whoseTurn)))
  else if ctx.currentAction = some "foreign-aid" then
    some (ctxSetPlayer ctx ctx.whoseTurn (Player.adjustCash 2 (ctxPlayer ctx ctx.whoseTurn)))
  else if ctx.currentAction = some "tax" then
    some (ctxSetPlayer ctx ctx.whoseTurn (Player.adjustCash 3 (ctxPlayer ctx ctx.whoseTurn)))
  else if ctx.currentAction = some "assassinate" then
    some (Game.applyRevealAction ctx)
  else
    none

/-- redealPlayerRole: push the revealed role onto the deck (pushDeck_s),
shuffle the deck under the engine seed (shuffleDeck_s), pop the new top role
(popDeck_s), and swap it into the player's slot still holding oldRole
(swapRole_s through the player lens; the deck operations do not touch the
players, so the lens reads the original player list).  The pop cannot see an
empty deck because the push precedes it; the error arm models the
InvariantViolation of spec §7. -/
def redealPlayerRole (idx : Nat) (oldRole : Role) (ctx : Context) : Except String Context :=
  match shuffle randUint (oldRole :: ctx.deck) ctx.seed with
  | ([], _) => .error "pop from empty deck"
  | (newRole :: rest, seed2) =>
    match Player.swapRole oldRole newRole (ctxPlayer ctx idx) with
    | .error m => .error m
    | .ok p => .ok { (ctxSetPlayer ctx idx p) with deck := rest, seed := seed2 }

---- Events

/-- The event vocabulary.  Every event carries a player index; ACTION carries
an action name and an optional target, BLOCK and REVEAL carry a role.  The
malformed-payload checks of the JS guards (`'player' in event`, typeof tests)
are subsumed by this typing. -/
inductive Event where
  | action (player : Nat) (act : String) (target : Option Nat)
  | block (player : Nat) (role : String)
  | challenge (player : Nat)
  | allow (player : Nat)
  | reveal (player : Nat) (role : String)
deriving DecidableEq

def Event.player : Event → Nat
  | .action p _ _ => p
  | .block p _ => p
  | .challenge p => p
  | .allow p => p
  | .reveal p _ => p

def Event.type : Event → String
  | .action _ _ _ => "ACTION"
  | .block _ _ => "BLOCK"
  | .challenge _ => "CHALLENGE"
  | .allow _ => "ALLOW"
  | .reveal _ _ => "REVEAL"

-- event.role for an optional event (xstate's null event, used for eventless
-- transitions, has no role field: `none`).
def eventRole : Option Event → Option String
  | some (.block _ r) => some r
  | some (.reveal _ r) => some r
  | _ => none

---- Guards

-- todo comment in source: check player is alive.  The guard only checks the
-- index range.
def isValidPlayerIdx (ctx : Context) (idx : Nat) : Bool :=
  decide (idx < ctx.players.length)

def assertValidPlayer (ctx : Context) (e : Event) : Except String Unit :=
  let t := e.type
  if isValidPlayerIdx ctx e.player then .ok ()
  else .error s!"{t} event must specify a valid player"

def assertCanStartAction (ctx : Context) (e : Event) : Except String Unit := do
  assertValidPlayer ctx e
  let t := e.type
  match e with
  | .action p a tgt =>
    if ¬ ctx.gdef.isValidAction a then
      throw s!"{t} event must specify a valid action"
    else if p ≠ ctx.whoseTurn then
      throw s!"{t} event not allowed from player {p}"
    else do
      if ctx.gdef.isTargeted a then
        match tgt with
        | none => throw s!"{t} event must target a valid player"
        | some tv =>
          if ¬ isValidPlayerIdx ctx tv then
            throw s!"{t} event must target a valid player"
          else if tv = ctx.whoseTurn then
            throw s!"{t} event cannot target player {tv}"
          else pure ()
      if ¬ Game.playerCanAffordAction e.player a ctx then
        throw s!"Player {p} cannot afford action {a}"
  | _ => throw s!"{t} event must specify a valid action"

def assertCanReveal (ctx : Context) (e : Event) : Except String Unit := do
  assertValidPlayer ctx e
  let t := e.type
  let p := e.player
  if ctx.revealer ≠ some p then
    throw s!"{t} event not allowed from player {p}"
  match e with
  | .reveal _ role =>
    if ¬ ctx.gdef.isValidRole role then
      throw s!"{t} event must specify a valid role"
    else if ¬ Game.playerHasRole p role ctx then
      throw s!"{t} event must specify a role that is held by the player and not yet revealed"
    else pure ()
  | _ => throw s!"{t} event must specify a valid role"

def assertValidOpponent (ctx : Context) (e : Event) : Except String Unit := do
  assertValidPlayer ctx e
  let t := e.type
  let p := e.player
  if p = ctx.whoseTurn then
    throw s!"{t} event not allowed from player {p}"

def assertCurrentPlayer (ctx : Context) (e : Event) : Except String Unit := do
  assertValidPlayer ctx e
  let t := e.type
  let p := e.player
  if p ≠ ctx.whoseTurn then
    throw s!"{t} event not allowed from player {p}"

def ifActionWasBlocked (ctx : Context) : Bool :=
  ctx.blocker.isSome

def assertCanChallenge (ctx : Context) (e : Event) : Except String Unit :=
  if ifActionWasBlocked ctx then do
    assertValidPlayer ctx e
    let t := e.type
    let p := e.player
    -- The player who is blocking cannot challenge
    if some p = ctx.blocker then
      throw s!"{t} event not allowed from player {p}"
  else do
    -- The player whose turn it is cannot challenge
    assertValidOpponent ctx e
    let a := ctx.currentAction.getD ""
    if ¬ ctx.gdef.isRoleRequired a then
      throw s!"Action {a} cannot be challenged"

def assertCanBlock (ctx : Context) (e : Event) : Except String Unit := do
  assertValidOpponent ctx e
  let t := e.type
  match e with
  | .block _ role =>
    let a := ctx.currentAction.getD ""
    if ¬ ctx.gdef.isBlockedBy a role then
      throw s!"Action {a} cannot be blocked by role {role}"
    else pure ()
  | _ => throw s!"{t} event must specify a valid role"

def ifActionHasResponse (ctx : Context) : Bool :=
  let a := ctx.currentAction.getD ""
  ctx.gdef.isRoleRequired a || ctx.gdef.isBlockable a

def ifActionHasNoResponse (ctx : Context) : Bool :=
  !ifActionHasResponse ctx

def ifChallengeIncorrect (ctx : Context) : Bool :=
  let a := ctx.currentAction.getD ""
  match ctx.blocker with
  | some _ => ctx.gdef.isBlockedBy a (ctx.revealedRole.getD "")
  | none => ctx.gdef.ifRoleAllowsAction (ctx.revealedRole.getD "") a

def ifPendingReveal (ctx : Context) : Bool :=
  ctx.revealer.isSome && ctx.revealedRole.isNone

def ifBlockableAction (ctx : Context) : Bool :=
  ctx.gdef.isBlockable (ctx.currentAction.getD "")

-- context.revealer is always a number where this guard is evaluated; the
-- `none` arm corresponds to the JS fault on players[null] and is unreachable.
def ifAutoReveal (ctx : Context) : Bool :=
  match ctx.revealer with
  | some r => Game.playerHasNInf r 1 ctx
  | none => false

---- Machine actions (assigns)

inductive SName where
  | StartOfTurn
  | WaitForResponse
  | Block
  | Challenge
  | ExecRevealOnChallenge
  | ChallengeIncorrect
  | ExecCounterReveal
  | WaitForBlock
  | FinishAction
  | RevealOnAction
  | EndOfTurn
  | GameOver
deriving DecidableEq

inductive ActName where
  | resetContext
  | setCurrentAction
  | setBlocker
  | setChallenger
  | setRevealerFromChallenge
  | setRevealerChallenger
  | clearRevealer
  | advanceTurn
  | applyAction
  | revealInfluence
  | replaceInfluence
  | payActionCost
deriving DecidableEq

def resetContextFn (ctx : Context) : Context :=
  { ctx with currentAction := none, target := none, blocker := none,
             challenger := none, revealer := none, revealedRole := none }

-- currentAction := event.action; target := typeof event.target == 'number' ? event.target : null
def setCurrentActionFn (ctx : Context) (ev : Option Event) : Context :=
  match ev with
  | some (.action _ a tgt) => { ctx with currentAction := some a, target := tgt }
  | _ => { ctx with currentAction := none, target := none }

def setBlockerFn (ctx : Context) (ev : Option Event) : Context :=
  match ev with
  | some e => { ctx with blocker := some e.player }
  | none => { ctx with blocker := none }

def setChallengerFn (ctx : Context) (ev : Option Event) : Context :=
  match ev with
  | some e => { ctx with challenger := some e.player }
  | none => { ctx with challenger := none }

-- setRevealer(context => ifActionWasBlocked(context) ? context.blocker : context.whoseTurn)
def setRevealerFromChallengeFn (ctx : Context) : Context :=
  { ctx with revealer := if ifActionWasBlocked ctx then ctx.blocker else some ctx.whoseTurn,
             revealedRole := none }

-- setRevealer(context => context.challenger)
def setRevealerChallengerFn (ctx : Context) : Context :=
  { ctx with revealer := ctx.challenger, revealedRole := none }

def clearRevealerFn (ctx : Context) : Context :=
  { ctx with revealer := none, revealedRole := none }

-- todo comment in source: living players.  Advances modulo all players.
def advanceTurnFn (ctx : Context) : Context :=
  { ctx with whoseTurn := (ctx.whoseTurn + 1) % ctx.players.length }

-- assign(Game.applyAction): in xstate v4, updateContext merges the assigner's
-- return into the context with Object.assign({}, ctx, ret); a ret of
-- undefined (the unmatched R.cond) is skipped, leaving the context unchanged.
def applyActionFn (ctx : Context) : Context :=
  match Game.applyAction ctx with
  | some ctx2 => ctx2
  | none => ctx

-- The role revealInfluence acts on: event.role when present and truthy
-- (`event.role ||` treats the empty string as absent), otherwise the
-- player's first unrevealed role (undefined when the player has none).
def revealTargetRole (ctx : Context) (r : Nat) (ev : Option Event) : Role :=
  match eventRole ev with
  | some s => if s = "" then (Player.getFirstRole (ctxPlayer ctx r)).getD "undefined" else s
  | none => (Player.getFirstRole (ctxPlayer ctx r)).getD "undefined"

/-- revealInfluence.  For auto-reveal the transition is eventless and xstate
v4 runs its actions with the null event, so event.role is absent and the
player's first (sole) unrevealed role is used.  The error arms model the JS
faults (revealer null, or the player lacking the requested role), which
cannot occur on guarded paths. -/
def revealInfluenceFn (ctx : Context) (ev : Option Event) : Except String Context :=
  match ctx.revealer with
  | none => .error "revealInfluence: revealer is not set"
  | some r =>
    match Player.revealRole (revealTargetRole ctx r ev) (ctxPlayer ctx r) with
    | .error m => .error m
    | .ok p2 => .ok { (ctxSetPlayer ctx r p2) with revealedRole := some (revealTargetRole ctx r ev) }

def replaceInfluenceFn (ctx : Context) : Except String Context :=
  match ctx.revealer, ctx.revealedRole with
  | some r, some role =>
    match Player.unrevealRole role (ctxPlayer ctx r) with
    | .error m => .error m
    | .ok p => redealPlayerRole r role (ctxSetPlayer ctx r p)
  | _, _ => .error "replaceInfluence: no pending reveal"

def payActionCostFn (ctx : Context) : Context :=
  ctxSetPlayer ctx ctx.whoseTurn
    (Player.adjustCash (-(ctx.gdef.getCost (ctx.currentAction.getD "") : Int))
      (ctxPlayer ctx ctx.whoseTurn))

def runAct (a : ActName) (ctx : Context) (ev : Option Event) : Except String Context :=
  match a with
  | .resetContext => .ok (resetContextFn ctx)
  | .setCurrentAction => .ok (setCurrentActionFn ctx ev)
  | .setBlocker => .ok (setBlockerFn ctx ev)
  | .setChallenger => .ok (setChallengerFn ctx ev)
  | .setRevealerFromChallenge => .ok (setRevealerFromChallengeFn ctx)
  | .setRevealerChallenger => .ok (setRevealerChallengerFn ctx)
  | .clearRevealer => .ok (clearRevealerFn ctx)
  | .advanceTurn => .ok (advanceTurnFn ctx)
  | .applyAction => .ok (applyActionFn ctx)
  | .revealInfluence => revealInfluenceFn ctx ev
  | .replaceInfluence => replaceInfluenceFn ctx
  | .payActionCost => .ok (payActionCostFn ctx)

def runActsList : List ActName → Option Event → Context → Except String Context
  | [], _, ctx => .ok ctx
  | a :: rest, ev, ctx =>
    match runAct a ctx ev with
    | .error m => .error m
    | .ok c => runActsList rest ev c

---- Machine structure

def entrySeq : SName → List ActName
  | .StartOfTurn => [.resetContext]
  | .WaitForResponse => [.setCurrentAction]
  | .Block => [.setBlocker]
  | .Challenge => [.setChallenger, .setRevealerFromChallenge]
  | .ExecRevealOnChallenge => [.revealInfluence]
  | .ChallengeIncorrect => [.replaceInfluence, .setRevealerChallenger]
  | .ExecCounterReveal => [.revealInfluence]
  | .WaitForBlock => [.clearRevealer, .payActionCost]
  | .FinishAction => [.clearRevealer, .applyAction]
  | .RevealOnAction => []
  | .EndOfTurn => []
  | .GameOver => []

/-- The event-driven transitions: for the current state and event, the guard
result together with the target state and the transition actions (run before
the target's entry actions).  `none` means the event has no handler in this
state; since every event type is handled somewhere in the machine, strict
mode does not throw and xstate returns the state unchanged. -/
def handleEvent (s : SName) (ctx : Context) (e : Event) : Option (Except String (SName × List ActName)) :=
  match s, e with
  | .StartOfTurn, .action _ _ _ =>
    some ((assertCanStartAction ctx e).map fun _ => (.WaitForResponse, []))
  | .WaitForResponse, .block _ _ =>
    some ((assertCanBlock ctx e).map fun _ => (.Block, [.payActionCost]))
  | .WaitForResponse, .challenge _ =>
    some ((assertCanChallenge ctx e).map fun _ => (.Challenge, []))
  | .WaitForResponse, .allow _ =>
    some ((assertValidOpponent ctx e).map fun _ => (.FinishAction, [.payActionCost]))
  | .Block, .challenge _ =>
    some ((assertCanChallenge ctx e).map fun _ => (.Challenge, []))
  | .Block, .allow _ =>
    some ((assertCurrentPlayer ctx e).map fun _ => (.EndOfTurn, []))
  | .Challenge, .reveal _ _ =>
    some ((assertCanReveal ctx e).map fun _ => (.ExecRevealOnChallenge, []))
  | .ChallengeIncorrect, .reveal _ _ =>
    some ((assertCanReveal ctx e).map fun _ => (.ExecCounterReveal, []))
  | .WaitForBlock, .block _ _ =>
    some ((assertCanBlock ctx e).map fun _ => (.Block, []))
  | .WaitForBlock, .allow _ =>
    some ((assertValidOpponent ctx e).map fun _ => (.FinishAction, []))
  | .RevealOnAction, .reveal _ _ =>
    some ((assertCanReveal ctx e).map fun _ => (.EndOfTurn, [.revealInfluence]))
  | _, _ => none

/-- The eventless (`always`) transitions, evaluated in listed order on entry:
the first one whose guard holds fires, giving the target and the transition
actions. -/
def selectAlways (s : SName) (ctx : Context) : Option (SName × List ActName) :=
  match s with
  | .WaitForResponse =>
    if ifActionHasNoResponse ctx then some (.FinishAction, []) else none
  | .Challenge =>
    if ifAutoReveal ctx then some (.ExecRevealOnChallenge, []) else none
  | .ExecRevealOnChallenge =>
    if ifChallengeIncorrect ctx then some (.ChallengeIncorrect, [])
    -- If a block was correctly challenged, the action succeeds
    else if ifActionWasBlocked ctx then some (.FinishAction, [])
    -- Otherwise, an action was correctly challenged, so it does not occur
    else some (.EndOfTurn, [])
  | .ChallengeIncorrect =>
    if ifAutoReveal ctx then some (.ExecCounterReveal, []) else none
  | .ExecCounterReveal =>
    -- If a block was incorrectly challenged, the block succeeds
    if ifActionWasBlocked ctx then some (.EndOfTurn, [])
    -- If the action is blockable, there is a last chance to block
    else if ifBlockableAction ctx then some (.WaitForBlock, [])
    -- Otherwise the action succeeds
    else some (.FinishAction, [])
  | .FinishAction =>
    if ifPendingReveal ctx then some (.RevealOnAction, []) else some (.EndOfTurn, [])
  | .RevealOnAction =>
    if ifAutoReveal ctx then some (.EndOfTurn, [.revealInfluence]) else none
  | .EndOfTurn =>
    if Game.isOver ctx then some (.GameOver, []) else some (.StartOfTurn, [.advanceTurn])
  | .StartOfTurn | .Block | .WaitForBlock | .GameOver => none

/-- One eventless microstep from a state: xstate v4 processes `always`
transitions with the null event, so the actions see no event payload. -/
def alwaysStep (s : SName) (ctx : Context) : Option (Except String (SName × Context × List ActName)) :=
  match selectAlways s ctx with
  | none => none
  | some (tgt, transActs) =>
    some ((runActsList (transActs ++ entrySeq tgt) none ctx).map
      fun ctx2 => (tgt, ctx2, transActs ++ entrySeq tgt))

def resolveAlways : Nat → SName → Context → List ActName → Except String (SName × Context × List ActName)
  | 0, _, _, _ => .error "always transition limit exceeded"
  | fuel + 1, s, ctx, log =>
    match alwaysStep s ctx with
    | none => .ok (s, ctx, log)
    | some (.error m) => .error m
    | some (.ok (tgt, ctx2, acts)) => resolveAlways fuel tgt ctx2 (log ++ acts)

-- The state graph has no cycle of eventless transitions; the longest chain is
-- shorter than this fuel, so the limit arm above is unreachable.
def alwaysFuel : Nat := 12

structure MState where
  name : SName
  ctx : Context
deriving DecidableEq

/-- One macrostep of GameMachine.transition: select the event handler, run its
guard, run the transition actions then the target's entry actions with the
triggering event, then resolve eventless transitions to a rest state.  The
returned list records the machine actions executed, in order.  An event with
no handler in the current state is returned unchanged (its type is known to
the machine, so strict mode does not throw). -/
def transition (s : MState) (e : Event) : Except String (MState × List ActName) :=
  match handleEvent s.name s.ctx e with
  | none => .ok (s, [])
  | some (.error m) => .error m
  | some (.ok (tgt, transActs)) =>
    match runActsList (transActs ++ entrySeq tgt) (some e) s.ctx with
    | .error m => .error m
    | .ok ctx2 =>
      match resolveAlways alwaysFuel tgt ctx2 (transActs ++ entrySeq tgt) with
      | .error m => .error m
      | .ok (name2, ctx3, log) => .ok (⟨name2, ctx3⟩, log)

def run : MState → List Event → Except String (MState × List ActName)
  | s, [] => .ok (s, [])
  | s, e :: es =>
    match transition s e with
    | .error m => .error m
    | .ok (s1, log1) =>
      match run s1 es with
      | .error m => .error m
      | .ok (s2, log2) => .ok (s2, log1 ++ log2)

/-- GameMachine.withContext(ctx).initialState: the initial StartOfTurn state
with its entry actions applied (resetContext cannot fail). -/
def initialState (ctx : Context) : MState :=
  ⟨.StartOfTurn, resetContextFn ctx⟩

---- Derived measures used by the specification's invariants

def sumUnrevealed (players : List Player) : Nat :=
  (players.map Player.countInf).sum

def sumSlots (players : List Player) : Nat :=
  (players.map (fun p => p.influence.length)).sum

-- Spec P1's quantity: deck length plus total unrevealed influence.
def deckPlusUnrevealed (ctx : Context) : Nat :=
  ctx.deck.length + sumUnrevealed ctx.players

-- The closed-system quantity: deck length plus all influence slots.
def totalCards (ctx : Context) : Nat :=
  ctx.deck.length + sumSlots ctx.players

def payCount (log : List ActName) : Nat :=
  log.countP (fun a => decide (a = ActName.payActionCost))

def isActionEvent (e : Event) : Bool :=
  match e with
  | .action _ _ _ => true
  | _ => false

/-- How many more payActionCost executions the current turn can still incur:
1 before the action is committed, 0 afterwards.  In the challenge states the
block branch (blocker set) has already paid on the BLOCK transition. -/
def payPotential (s : SName) (ctx : Context) : Nat :=
  match s with
  | .WaitForResponse => 1
  | .Challenge | .ExecRevealOnChallenge | .ChallengeIncorrect | .ExecCounterReveal =>
    if ctx.blocker.isSome then 0 else 1
  | _ => 0

/-- The machine invariant needed for the pay-at-most-once bound: resting in
Block implies a blocker is recorded (its entry action always records one). -/
def BlockInv (s : MState) : Prop :=
  s.name = .Block → s.ctx.blocker.isSome = true

---- Concrete fixtures (mirroring the repository's test setups)

def gdef0 : GameDef := ⟨defaultRoles⟩

def deck0 : List Role := gdef0.makeDeck

def mkPlayer (cash : Int) (r1 r2 : Role) (v1 v2 : Bool) : Player :=
  ⟨cash, [⟨r1, v1⟩, ⟨r2, v2⟩]⟩

def mkCtx (players : List Player) (turn : Nat) : Context :=
  ⟨turn, players, deck0, [1, 2, 3, 4], none, none, none, none, none, none, gdef0⟩

-- The two-player fixture of the test suite: P0 [duke, captain], P1 [assassin, duke].
def ctxTwo : Context :=
  mkCtx [mkPlayer 2 "duke" "captain" false false, mkPlayer 2 "assassin" "duke" false false] 0

-- Two players, P0 rich enough to coup.
def ctxCoup : Context :=
  mkCtx [mkPlayer 7 "duke" "captain" false false, mkPlayer 2 "assassin" "duke" false false] 0

-- Three players, P0 rich enough to assassinate twice.
def ctxThree : Context :=
  mkCtx [mkPlayer 10 "duke" "assassin" false false, mkPlayer 2 "duke" "duke" false false,
         mkPlayer 2 "captain" "contessa" false false] 0

-- P0 assassinates P1 twice (everyone allows); the second reveal is automatic
-- and kills P1, after which the turn advances to the dead player 1.
def killP1Events : List Event :=
  [.action 0 "assassinate" (some 1), .allow 2, .reveal 1 "duke",
   .action 1 "income" none, .action 2 "income" none,
   .action 0 "assassinate" (some 1), .allow 2]

-- After killP1Events: dead P1 takes a turn unchallenged, then P2 claims tax,
-- leaving the machine waiting for responses with P1 dead.
def deadSenderEvents : List Event :=
  killP1Events ++ [.action 1 "income" none, .action 2 "tax" none]

---- Lemmas: the seeded shuffle is a permutation

theorem randUint_le (s : Seed) : randUint s ≤ UINT32_MAX := by
  have h : randUint s < 2 ^ 32 := Nat.mod_lt _ (by norm_num)
  simpa [UINT32_MAX] using Nat.le_pred_of_lt h

theorem randRange_le {u : Nat} (hu : u ≤ UINT32_MAX) (d : Nat) : randRange u 0 d ≤ d := by
  have hM : UINT32_MAX = 4294967295 := by norm_num [UINT32_MAX]
  unfold randRange
  simp only [Nat.sub_zero]
  rw [hM] at hu ⊢
  have h2 : 2 * u * d ≤ 2 * 4294967295 * d :=
    Nat.mul_le_mul_right d (Nat.mul_le_mul_left 2 hu)
  omega

theorem getD_cons_eraseIdx_perm :
    ∀ (l : List Role) (i : Nat), i < l.length →
      List.Perm (l.getD i "" :: l.eraseIdx i) l := by
  intro l
  induction l with
  | nil => intro i h; simp at h
  | cons x xs ih =>
    intro i h
    cases i with
    | zero => simp [List.getD]
    | succ j =>
      have hj : j < xs.length := by simpa using h
      have h1 : List.Perm (xs.getD j "" :: x :: xs.eraseIdx j)
          (x :: (xs.getD j "" :: xs.eraseIdx j)) := List.Perm.swap _ _ _
      have h2 : List.Perm (x :: (xs.getD j "" :: xs.eraseIdx j)) (x :: xs) :=
        List.Perm.cons x (ih j hj)
      simpa [List.getD, List.eraseIdx] using h1.trans h2

theorem shuffleAux_perm (ru : Seed → Nat) (hru : ∀ s, ru s ≤ UINT32_MAX) :
    ∀ (fuel : Nat) (l : List Role) (s : Seed), l.length ≤ fuel →
      List.Perm (shuffleAux ru fuel l s).1 l := by
  intro fuel
  induction fuel with
  | zero =>
    intro l s h
    have : l = [] := List.length_eq_zero.mp (Nat.le_zero.mp h)
    simp [this, shuffleAux]
  | succ n ih =>
    intro l s h
    by_cases h1 : l.length ≤ 1
    · simp [shuffleAux, h1]
    · have hlen : 2 ≤ l.length := by omega
      have hi : randRange (ru s) 0 (l.length - 1) < l.length := by
        have := randRange_le (hru s) (l.length - 1)
        omega
      have herase : (l.eraseIdx (randRange (ru s) 0 (l.length - 1))).length ≤ n := by
        rw [List.length_eraseIdx_of_lt hi]
        omega
      have hperm := ih (l.eraseIdx (randRange (ru s) 0 (l.length - 1))) (nextSeed ru s) herase
      have hstep := getD_cons_eraseIdx_perm l _ hi
      simp only [shuffleAux, h1, if_false]
      exact (List.Perm.cons _ hperm).trans hstep

theorem shuffle_perm (ru : Seed → Nat) (hru : ∀ s, ru s ≤ UINT32_MAX)
    (l : List Role) (s : Seed) : List.Perm (shuffle ru l s).1 l :=
  shuffleAux_perm ru hru l.length l s (Nat.le_refl _)

theorem shuffle_length (l : List Role) (s : Seed) :
    (shuffle randUint l s).1.length = l.length :=
  (shuffle_perm randUint randUint_le l s).length_eq

---- Lemmas: card conservation through every context mutation

theorem adjustAt_length (i : Nat) (f : α → α) (l : List α) :
    (adjustAt i f l).length = l.length := by
  unfold adjustAt
  cases h : l.get? i <;> simp

theorem revealRole_length {role : Role} {p p' : Player}
    (h : Player.revealRole role p = .ok p') :
    p'.influence.length = p.influence.length := by
  unfold Player.revealRole at h
  cases hf : findIdxA (fun inf => decide (inf = ⟨role, false⟩)) p.influence with
  | none => rw [hf] at h; exact absurd h (by simp)
  | some i =>
    rw [hf] at h
    cases h
    simp [adjustAt_length]

theorem unrevealRole_length {role : Role} {p p' : Player}
    (h : Player.unrevealRole role p = .ok p') :
    p'.influence.length = p.influence.length := by
  unfold Player.unrevealRole at h
  cases hf : findIdxA (fun inf => decide (inf = ⟨role, true⟩)) p.influence with
  | none => rw [hf] at h; exact absurd h (by simp)
  | some i =>
    rw [hf] at h
    cases h
    simp [adjustAt_length]

theorem swapRole_length {oldRole newRole : Role} {p p' : Player}
    (h : Player.swapRole oldRole newRole p = .ok p') :
    p'.influence.length = p.influence.length := by
  unfold Player.swapRole at h
  cases hf : findIdxA (fun inf => decide (inf = ⟨oldRole, false⟩)) p.influence with
  | none => rw [hf] at h; exact absurd h (by simp)
  | some i =>
    rw [hf] at h
    cases h
    simp [adjustAt_length]

theorem sumSlots_set (l : List Player) (i : Nat) (p : Player)
    (h : p.influence.length = (l.getD i ⟨0, []⟩).influence.length) :
    sumSlots (l.set i p) = sumSlots l := by
  induction l generalizing i with
  | nil => simp
  | cons x xs ih =>
    cases i with
    | zero =>
      rw [List.getD_cons_zero] at h
      simp [sumSlots, h]
    | succ j =>
      rw [List.getD_cons_succ] at h
      have hx := ih j h
      simp only [List.set, sumSlots, List.map_cons, List.sum_cons] at hx ⊢
      omega

theorem ctxSetPlayer_totalCards {ctx : Context} {idx : Nat} {p : Player}
    (h : p.influence.length = (ctxPlayer ctx idx).influence.length) :
    totalCards (ctxSetPlayer ctx idx p) = totalCards ctx := by
  unfold totalCards ctxSetPlayer
  simp only
  rw [sumSlots_set ctx.players idx p h]

theorem redealPlayerRole_totalCards {idx : Nat} {oldRole : Role} {ctx ctx' : Context}
    (h : redealPlayerRole idx oldRole ctx = .ok ctx') :
    totalCards ctx' = totalCards ctx := by
  unfold redealPlayerRole at h
  have hlen : (shuffle randUint (oldRole :: ctx.deck) ctx.seed).1.length
      = ctx.deck.length + 1 := by
    rw [shuffle_length]
    simp
  cases hd : shuffle randUint (oldRole :: ctx.deck) ctx.seed with
  | mk dk seed2 =>
    rw [hd] at h hlen
    cases dk with
    | nil => simp at hlen
    | cons newRole rest =>
      simp only at h
      cases hs : Player.swapRole oldRole newRole (ctxPlayer ctx idx) with
      | error m => rw [hs] at h; exact absurd h (by simp)
      | ok p =>
        rw [hs] at h
        cases h
        have hrest : rest.length = ctx.deck.length := by simpa using hlen
        have hslots : sumSlots (ctx.players.set idx p) = sumSlots ctx.players :=
          sumSlots_set ctx.players idx p (swapRole_length hs)
        simp [totalCards, ctxSetPlayer, hrest, hslots]

theorem revealInfluenceFn_totalCards {ctx ctx' : Context} {ev : Option Event}
    (h : revealInfluenceFn ctx ev = .ok ctx') : totalCards ctx' = totalCards ctx := by
  unfold revealInfluenceFn at h
  split at h
  · exact absurd h (by simp)
  · rename_i r _
    split at h
    · exact absurd h (by simp)
    · rename_i p2 hs
      cases h
      have hslots : sumSlots (ctx.players.set r p2) = sumSlots ctx.players :=
        sumSlots_set ctx.players r p2 (revealRole_length hs)
      simp [totalCards, ctxSetPlayer, hslots]

theorem replaceInfluenceFn_totalCards {ctx ctx' : Context}
    (h : replaceInfluenceFn ctx = .ok ctx') : totalCards ctx' = totalCards ctx := by
  unfold replaceInfluenceFn at h
  split at h
  · rename_i r role hr hro
    split at h
    · exact absurd h (by simp)
    · rename_i p hu
      have h1 : totalCards (ctxSetPlayer ctx r p) = totalCards ctx :=
        ctxSetPlayer_totalCards (unrevealRole_length hu)
      rw [redealPlayerRole_totalCards h, h1]
  · exact absurd h (by simp)

theorem applyAction_totalCards {ctx ctx2 : Context}
    (h : Game.applyAction ctx = some ctx2) : totalCards ctx2 = totalCards ctx := by
  unfold Game.applyAction at h
  split at h
  · cases h; exact ctxSetPlayer_totalCards rfl
  · split at h
    · cases h; exact ctxSetPlayer_totalCards rfl
    · split at h
      · cases h; exact ctxSetPlayer_totalCards rfl
      · split at h
        · cases h; simp [Game.applyRevealAction, totalCards]
        · exact absurd h (by simp)

theorem applyActionFn_totalCards (ctx : Context) :
    totalCards (applyActionFn ctx) = totalCards ctx := by
  unfold applyActionFn
  cases hA : Game.applyAction ctx with
  | none => rfl
  | some ctx2 => exact applyAction_totalCards hA

theorem runAct_totalCards {a : ActName} {ctx ctx' : Context} {ev : Option Event}
    (h : runAct a ctx ev = .ok ctx') : totalCards ctx' = totalCards ctx := by
  cases a with
  | resetContext => cases h; simp [resetContextFn, totalCards]
  | setCurrentAction =>
    cases h
    unfold setCurrentActionFn
    cases ev with
    | none => simp [totalCards]
    | some e => cases e <;> simp [totalCards]
  | setBlocker =>
    cases h
    unfold setBlockerFn
    cases ev <;> simp [totalCards]
  | setChallenger =>
    cases h
    unfold setChallengerFn
    cases ev <;> simp [totalCards]
  | setRevealerFromChallenge => cases h; simp [setRevealerFromChallengeFn, totalCards]
  | setRevealerChallenger => cases h; simp [setRevealerChallengerFn, totalCards]
  | clearRevealer => cases h; simp [clearRevealerFn, totalCards]
  | advanceTurn => cases h; simp [advanceTurnFn, totalCards]
  | applyAction => cases h; exact applyActionFn_totalCards ctx
  | revealInfluence => exact revealInfluenceFn_totalCards h
  | replaceInfluence => exact replaceInfluenceFn_totalCards h
  | payActionCost =>
    cases h
    exact ctxSetPlayer_totalCards rfl

theorem runActsList_totalCards :
    ∀ {acts : List ActName} {ev : Option Event} {ctx ctx' : Context},
      runActsList acts ev ctx = .ok ctx' → totalCards ctx' = totalCards ctx := by
  intro acts
  induction acts with
  | nil => intro ev ctx ctx' h; cases h; rfl
  | cons a rest ih =>
    intro ev ctx ctx' h
    unfold runActsList at h
    cases ha : runAct a ctx ev with
    | error m => rw [ha] at h; exact absurd h (by simp)
    | ok c =>
      rw [ha] at h
      rw [ih h, runAct_totalCards ha]

theorem alwaysStep_totalCards {s : SName} {ctx : Context} {tgt : SName} {ctx2 : Context}
    {acts : List ActName} (h : alwaysStep s ctx = some (.ok (tgt, ctx2, acts))) :
    totalCards ctx2 = totalCards ctx := by
  unfold alwaysStep at h
  split at h
  · exact absurd h (by simp)
  · rename_i tgt0 transActs0 hsel
    cases hrun : runActsList (transActs0 ++ entrySeq tgt0) none ctx with
    | error m => rw [hrun] at h; exact absurd h (by simp [Except.map])
    | ok c2 =>
      rw [hrun] at h
      simp only [Except.map, Option.some.injEq, Except.ok.injEq, Prod.mk.injEq] at h
      obtain ⟨-, h2, -⟩ := h
      rw [← h2]
      exact runActsList_totalCards hrun

theorem resolveAlways_totalCards :
    ∀ {fuel : Nat} {s : SName} {ctx : Context} {log : List ActName}
      {out : SName × Context × List ActName},
      resolveAlways fuel s ctx log = .ok out → totalCards out.2.1 = totalCards ctx := by
  intro fuel
  induction fuel with
  | zero => intro s ctx log out h; exact absurd h (by simp [resolveAlways])
  | succ n ih =>
    intro s ctx log out h
    unfold resolveAlways at h
    split at h
    · cases h; rfl
    · exact absurd h (by simp)
    · rename_i tgt ctx2 acts hstep
      rw [ih h, alwaysStep_totalCards hstep]

theorem transition_totalCards {s : MState} {e : Event} {s' : MState} {log : List ActName}
    (h : transition s e = .ok (s', log)) : totalCards s'.ctx = totalCards s.ctx := by
  unfold transition at h
  split at h
  · cases h; rfl
  · exact absurd h (by simp)
  · rename_i tgt transActs hh
    split at h
    · exact absurd h (by simp)
    · rename_i ctx2 hrun
      split at h
      · exact absurd h (by simp)
      · rename_i name2 ctx3 log2 hres
        cases h
        have h1 := resolveAlways_totalCards hres
        simp only at h1
        rw [h1, runActsList_totalCards hrun]

theorem run_totalCards :
    ∀ {es : List Event} {s s' : MState} {log : List ActName},
      run s es = .ok (s', log) → totalCards s'.ctx = totalCards s.ctx := by
  intro es
  induction es with
  | nil => intro s s' log h; cases h; rfl
  | cons e rest ih =>
    intro s s' log h
    unfold run at h
    split at h
    · exact absurd h (by simp)
    · rename_i s1 log1 ht
      split at h
      · exact absurd h (by simp)
      · rename_i s2 log2 hr
        cases h
        rw [ih hr, transition_totalCards ht]

---- Lemmas: the blocker field through the machine actions

theorem redealPlayerRole_blocker {idx : Nat} {oldRole : Role} {ctx ctx' : Context}
    (h : redealPlayerRole idx oldRole ctx = .ok ctx') : ctx'.blocker = ctx.blocker := by
  unfold redealPlayerRole at h
  split at h
  · exact absurd h (by simp)
  · split at h
    · exact absurd h (by simp)
    · cases h; rfl

theorem revealInfluenceFn_blocker {ctx ctx' : Context} {ev : Option Event}
    (h : revealInfluenceFn ctx ev = .ok ctx') : ctx'.blocker = ctx.blocker := by
  unfold revealInfluenceFn at h
  split at h
  · exact absurd h (by simp)
  · split at h
    · exact absurd h (by simp)
    · cases h; rfl

theorem replaceInfluenceFn_blocker {ctx ctx' : Context}
    (h : replaceInfluenceFn ctx = .ok ctx') : ctx'.blocker = ctx.blocker := by
  unfold replaceInfluenceFn at h
  split at h
  · split at h
    · exact absurd h (by simp)
    · rw [redealPlayerRole_blocker h]; rfl
  · exact absurd h (by simp)

theorem applyActionFn_blocker (ctx : Context) : (applyActionFn ctx).blocker = ctx.blocker := by
  unfold applyActionFn
  cases hA : Game.applyAction ctx with
  | none => rfl
  | some ctx2 =>
    unfold Game.applyAction at hA
    split at hA
    · cases hA; rfl
    · split at hA
      · cases hA; rfl
      · split at hA
        · cases hA; rfl
        · split at hA
          · cases hA; rfl
          · exact absurd hA (by simp)

theorem runActsList_cons_ok {a : ActName} {rest : List ActName} {ev : Option Event}
    {ctx ctx' : Context} (h : runActsList (a :: rest) ev ctx = .ok ctx') :
    ∃ c, runAct a ctx ev = .ok c ∧ runActsList rest ev c = .ok ctx' := by
  unfold runActsList at h
  split at h
  · exact absurd h (by simp)
  · rename_i c hc
    exact ⟨c, hc, h⟩

theorem runActsList_nil_ok {ev : Option Event} {ctx ctx' : Context}
    (h : runActsList [] ev ctx = .ok ctx') : ctx' = ctx := by
  cases h; rfl

theorem payCount_append (l1 l2 : List ActName) :
    payCount (l1 ++ l2) = payCount l1 + payCount l2 :=
  List.countP_append _ _ _

---- Lemmas: payActionCost runs at most once per action

theorem runAct_blocker {a : ActName} {ctx ctx' : Context} {ev : Option Event}
    (h : runAct a ctx ev = .ok ctx')
    (h1 : a ≠ .setBlocker) (h2 : a ≠ .resetContext) : ctx'.blocker = ctx.blocker := by
  cases a with
  | setBlocker => exact absurd rfl h1
  | resetContext => exact absurd rfl h2
  | setCurrentAction =>
    cases h
    unfold setCurrentActionFn
    cases ev with
    | none => rfl
    | some e => cases e <;> rfl
  | setChallenger =>
    cases h
    unfold setChallengerFn
    cases ev <;> rfl
  | setRevealerFromChallenge => cases h; rfl
  | setRevealerChallenger => cases h; rfl
  | clearRevealer => cases h; rfl
  | advanceTurn => cases h; rfl
  | applyAction => cases h; exact applyActionFn_blocker ctx
  | revealInfluence => exact revealInfluenceFn_blocker h
  | replaceInfluence => exact replaceInfluenceFn_blocker h
  | payActionCost => cases h; rfl

theorem alwaysStep_phi {s : SName} {ctx : Context} {tgt : SName} {ctx2 : Context}
    {acts : List ActName} (h : alwaysStep s ctx = some (.ok (tgt, ctx2, acts))) :
    payCount acts + payPotential tgt ctx2 ≤ payPotential s ctx ∧ tgt ≠ .Block := by
  unfold alwaysStep at h
  split at h
  · exact absurd h (by simp)
  · rename_i tgt0 transActs0 hsel
    cases hrun : runActsList (transActs0 ++ entrySeq tgt0) none ctx with
    | error m => rw [hrun] at h; exact absurd h (by simp [Except.map])
    | ok c2 =>
      rw [hrun] at h
      simp only [Except.map, Option.some.injEq, Except.ok.injEq, Prod.mk.injEq] at h
      obtain ⟨h1, h2, h3⟩ := h
      subst h1
      subst h2
      subst h3
      cases s with
      | StartOfTurn => exact absurd hsel (by simp [selectAlways])
      | Block => exact absurd hsel (by simp [selectAlways])
      | WaitForBlock => exact absurd hsel (by simp [selectAlways])
      | GameOver => exact absurd hsel (by simp [selectAlways])
      | WaitForResponse =>
        simp only [selectAlways] at hsel
        split at hsel
        · simp only [Option.some.injEq, Prod.mk.injEq] at hsel
          obtain ⟨h4, h5⟩ := hsel
          subst h4
          subst h5
          refine ⟨?_, by simp⟩
          have hpc : payCount ([] ++ entrySeq SName.FinishAction)
              + payPotential SName.FinishAction c2 = 0 := rfl
          rw [hpc]
          exact Nat.zero_le _
        · exact absurd hsel (by simp)
      | Challenge =>
        simp only [selectAlways] at hsel
        split at hsel
        · simp only [Option.some.injEq, Prod.mk.injEq] at hsel
          obtain ⟨h4, h5⟩ := hsel
          subst h4
          subst h5
          simp only [List.nil_append, entrySeq] at hrun
          obtain ⟨c1, hc1, hrest⟩ := runActsList_cons_ok hrun
          have hceq := runActsList_nil_ok hrest
          subst hceq
          have hb : c2.blocker = ctx.blocker :=
            runAct_blocker hc1 (by simp) (by simp)
          refine ⟨?_, by simp⟩
          have hpc : payCount [ActName.revealInfluence] = 0 := rfl
          simp only [List.nil_append, entrySeq, hpc, payPotential, hb, Nat.zero_add]
          exact Nat.le_refl _
        · exact absurd hsel (by simp)
      | ExecRevealOnChallenge =>
        simp only [selectAlways] at hsel
        split at hsel
        · -- ChallengeIncorrect: acts [replaceInfluence, setRevealerChallenger]
          simp only [Option.some.injEq, Prod.mk.injEq] at hsel
          obtain ⟨h4, h5⟩ := hsel
          subst h4
          subst h5
          simp only [List.nil_append, entrySeq] at hrun
          obtain ⟨c1, hc1, hrest1⟩ := runActsList_cons_ok hrun
          obtain ⟨c3, hc3, hrest3⟩ := runActsList_cons_ok hrest1
          have hceq := runActsList_nil_ok hrest3
          subst hceq
          have hb1 : c1.blocker = ctx.blocker :=
            runAct_blocker hc1 (by simp) (by simp)
          have hb3 : c2.blocker = c1.blocker :=
            runAct_blocker hc3 (by simp) (by simp)
          refine ⟨?_, by simp⟩
          have hpc : payCount [ActName.replaceInfluence, ActName.setRevealerChallenger] = 0 := rfl
          simp only [List.nil_append, entrySeq, hpc, payPotential, hb3, hb1, Nat.zero_add]
          exact Nat.le_refl _
        · split at hsel
          · -- FinishAction (blocked)
            simp only [Option.some.injEq, Prod.mk.injEq] at hsel
            obtain ⟨h4, h5⟩ := hsel
            subst h4
            subst h5
            refine ⟨?_, by simp⟩
            have hpc : payCount ([] ++ entrySeq SName.FinishAction)
                + payPotential SName.FinishAction c2 = 0 := rfl
            rw [hpc]
            exact Nat.zero_le _
          · -- EndOfTurn
            simp only [Option.some.injEq, Prod.mk.injEq] at hsel
            obtain ⟨h4, h5⟩ := hsel
            subst h4
            subst h5
            refine ⟨?_, by simp⟩
            have hpc : payCount ([] ++ entrySeq SName.EndOfTurn)
                + payPotential SName.EndOfTurn c2 = 0 := rfl
            rw [hpc]
            exact Nat.zero_le _
      | ChallengeIncorrect =>
        simp only [selectAlways] at hsel
        split at hsel
        · simp only [Option.some.injEq, Prod.mk.injEq] at hsel
          obtain ⟨h4, h5⟩ := hsel
          subst h4
          subst h5
          simp only [List.nil_append, entrySeq] at hrun
          obtain ⟨c1, hc1, hrest⟩ := runActsList_cons_ok hrun
          have hceq := runActsList_nil_ok hrest
          subst hceq
          have hb : c2.blocker = ctx.blocker :=
            runAct_blocker hc1 (by simp) (by simp)
          refine ⟨?_, by simp⟩
          have hpc : payCount [ActName.revealInfluence] = 0 := rfl
          simp only [List.nil_append, entrySeq, hpc, payPotential, hb, Nat.zero_add]
          exact Nat.le_refl _
        · exact absurd hsel (by simp)
      | ExecCounterReveal =>
        simp only [selectAlways] at hsel
        split at hsel
        · -- blocked: EndOfTurn
          simp only [Option.some.injEq, Prod.mk.injEq] at hsel
          obtain ⟨h4, h5⟩ := hsel
          subst h4
          subst h5
          refine ⟨?_, by simp⟩
          have hpc : payCount ([] ++ entrySeq SName.EndOfTurn)
              + payPotential SName.EndOfTurn c2 = 0 := rfl
          rw [hpc]
          exact Nat.zero_le _
        · rename_i hnotblocked
          split at hsel
          · -- WaitForBlock: pays here; the branch condition gives blocker unset
            simp only [Option.some.injEq, Prod.mk.injEq] at hsel
            obtain ⟨h4, h5⟩ := hsel
            subst h4
            subst h5
            have hb : ctx.blocker.isSome = false := by
              unfold ifActionWasBlocked at hnotblocked
              simpa using hnotblocked
            refine ⟨?_, by simp⟩
            have hpc : payCount ([] ++ entrySeq SName.WaitForBlock) = 1 := rfl
            have hppot : payPotential SName.WaitForBlock c2 = 0 := rfl
            rw [hpc, hppot]
            simp [payPotential, hb]
          · -- FinishAction
            simp only [Option.some.injEq, Prod.mk.injEq] at hsel
            obtain ⟨h4, h5⟩ := hsel
            subst h4
            subst h5
            refine ⟨?_, by simp⟩
            have hpc : payCount ([] ++ entrySeq SName.FinishAction)
                + payPotential SName.FinishAction c2 = 0 := rfl
            rw [hpc]
            exact Nat.zero_le _
      | FinishAction =>
        simp only [selectAlways] at hsel
        split at hsel
        · simp only [Option.some.injEq, Prod.mk.injEq] at hsel
          obtain ⟨h4, h5⟩ := hsel
          subst h4
          subst h5
          exact ⟨Nat.le_refl _, by simp⟩
        · simp only [Option.some.injEq, Prod.mk.injEq] at hsel
          obtain ⟨h4, h5⟩ := hsel
          subst h4
          subst h5
          exact ⟨Nat.le_refl _, by simp⟩
      | RevealOnAction =>
        simp only [selectAlways] at hsel
        split at hsel
        · simp only [Option.some.injEq, Prod.mk.injEq] at hsel
          obtain ⟨h4, h5⟩ := hsel
          subst h4
          subst h5
          refine ⟨?_, by simp⟩
          have hpc : payCount ([ActName.revealInfluence] ++ entrySeq SName.EndOfTurn)
              + payPotential SName.EndOfTurn c2 = 0 := rfl
          rw [hpc]
          exact Nat.zero_le _
        · exact absurd hsel (by simp)
      | EndOfTurn =>
        simp only [selectAlways] at hsel
        split at hsel
        · simp only [Option.some.injEq, Prod.mk.injEq] at hsel
          obtain ⟨h4, h5⟩ := hsel
          subst h4
          subst h5
          exact ⟨Nat.le_refl _, by simp⟩
        · simp only [Option.some.injEq, Prod.mk.injEq] at hsel
          obtain ⟨h4, h5⟩ := hsel
          subst h4
          subst h5
          refine ⟨?_, by simp⟩
          have hpc : payCount ([ActName.advanceTurn] ++ entrySeq SName.StartOfTurn)
              + payPotential SName.StartOfTurn c2 = 0 := rfl
          rw [hpc]
          exact Nat.zero_le _

theorem resolveAlways_phi :
    ∀ {fuel : Nat} {s : SName} {ctx : Context} {log : List ActName}
      {out : SName × Context × List ActName},
      resolveAlways fuel s ctx log = .ok out →
      payCount out.2.2 + payPotential out.1 out.2.1 ≤ payCount log + payPotential s ctx
      ∧ (out.1 = .Block → s = .Block ∧ out.2.1 = ctx) := by
  intro fuel
  induction fuel with
  | zero => intro s ctx log out h; exact absurd h (by simp [resolveAlways])
  | succ n ih =>
    intro s ctx log out h
    unfold resolveAlways at h
    split at h
    · cases h
      exact ⟨Nat.le_refl _, fun hb => ⟨hb, rfl⟩⟩
    · exact absurd h (by simp)
    · rename_i tgt ctx2 acts hstep
      have hs := alwaysStep_phi hstep
      have ihr := ih h
      constructor
      · have hla : payCount (log ++ acts) = payCount log + payCount acts :=
          payCount_append log acts
        have h1 := ihr.1
        rw [hla] at h1
        omega
      · intro hb
        have h2 := (ihr.2 hb).1
        exact absurd h2 hs.2

theorem mapGuard_ok {g : Except String Unit} {T tgt : SName} {A transActs : List ActName}
    (h : some (Except.map (fun _ => (T, A)) g) = some (.ok (tgt, transActs))) :
    tgt = T ∧ transActs = A := by
  cases g with
  | error m => simp [Except.map] at h
  | ok u =>
    simp only [Except.map, Option.some.injEq, Except.ok.injEq, Prod.mk.injEq] at h
    exact ⟨h.1.symm, h.2.symm⟩

theorem handleEvent_phi {s : SName} {ctx : Context} {e : Event} {tgt : SName}
    {transActs : List ActName} {ctx2 : Context}
    (hh : handleEvent s ctx e = some (.ok (tgt, transActs)))
    (hrun : runActsList (transActs ++ entrySeq tgt) (some e) ctx = .ok ctx2)
    (hinv : s = .Block → ctx.blocker.isSome = true) :
    payCount (transActs ++ entrySeq tgt) + payPotential tgt ctx2
      ≤ payPotential s ctx + (if isActionEvent e then 1 else 0)
    ∧ (tgt = .Block → ctx2.blocker.isSome = true) := by
  unfold handleEvent at hh
  split at hh
  · -- StartOfTurn + ACTION → WaitForResponse
    obtain ⟨h4, h5⟩ := mapGuard_ok hh
    subst h4
    subst h5
    exact ⟨Nat.le_refl _, by simp⟩
  · -- WaitForResponse + BLOCK → Block {payActionCost}
    rename_i p role
    obtain ⟨h4, h5⟩ := mapGuard_ok hh
    subst h4
    subst h5
    refine ⟨Nat.le_refl _, fun _ => ?_⟩
    obtain ⟨c1, hc1, hrest1⟩ := runActsList_cons_ok hrun
    obtain ⟨c4, hc4, hrest4⟩ := runActsList_cons_ok hrest1
    have hnil := runActsList_nil_ok hrest4
    subst hnil
    simp only [runAct, setBlockerFn, Except.ok.injEq] at hc4
    rw [← hc4]
    rfl
  · -- WaitForResponse + CHALLENGE → Challenge
    rename_i p
    obtain ⟨h4, h5⟩ := mapGuard_ok hh
    subst h4
    subst h5
    refine ⟨?_, by simp⟩
    have h0 : payCount ([] ++ entrySeq SName.Challenge) = 0 := rfl
    have h1 : payPotential SName.Challenge ctx2 ≤ 1 := by
      show (if ctx2.blocker.isSome = true then 0 else 1) ≤ 1
      split <;> omega
    rw [h0]
    show 0 + payPotential SName.Challenge ctx2 ≤ 1 + 0
    omega
  · -- WaitForResponse + ALLOW → FinishAction {payActionCost}
    rename_i p
    obtain ⟨h4, h5⟩ := mapGuard_ok hh
    subst h4
    subst h5
    exact ⟨Nat.le_refl _, by simp⟩
  · -- Block + CHALLENGE → Challenge
    rename_i p
    obtain ⟨h4, h5⟩ := mapGuard_ok hh
    subst h4
    subst h5
    refine ⟨?_, by simp⟩
    obtain ⟨c1, hc1, hrest1⟩ := runActsList_cons_ok hrun
    obtain ⟨c4, hc4, hrest4⟩ := runActsList_cons_ok hrest1
    have hnil := runActsList_nil_ok hrest4
    subst hnil
    have hb1 : c1.blocker = ctx.blocker := runAct_blocker hc1 (by simp) (by simp)
    have hb4 : ctx2.blocker = c1.blocker := runAct_blocker hc4 (by simp) (by simp)
    have hb : ctx2.blocker.isSome = true := by rw [hb4, hb1]; exact hinv rfl
    have h0 : payCount ([] ++ entrySeq SName.Challenge) = 0 := rfl
    rw [h0]
    show 0 + (if ctx2.blocker.isSome = true then 0 else 1) ≤ 0 + 0
    rw [hb]
    simp
  · -- Block + ALLOW → EndOfTurn
    rename_i p
    obtain ⟨h4, h5⟩ := mapGuard_ok hh
    subst h4
    subst h5
    exact ⟨Nat.le_refl _, by simp⟩
  · -- Challenge + REVEAL → ExecRevealOnChallenge
    rename_i p role
    obtain ⟨h4, h5⟩ := mapGuard_ok hh
    subst h4
    subst h5
    refine ⟨?_, by simp⟩
    obtain ⟨c1, hc1, hrest1⟩ := runActsList_cons_ok hrun
    have hnil := runActsList_nil_ok hrest1
    subst hnil
    have hb : ctx2.blocker = ctx.blocker := runAct_blocker hc1 (by simp) (by simp)
    have h0 : payCount ([] ++ entrySeq SName.ExecRevealOnChallenge) = 0 := rfl
    rw [h0]
    show 0 + (if ctx2.blocker.isSome = true then 0 else 1)
      ≤ (if ctx.blocker.isSome = true then 0 else 1) + 0
    rw [hb]
    omega
  · -- ChallengeIncorrect + REVEAL → ExecCounterReveal
    rename_i p role
    obtain ⟨h4, h5⟩ := mapGuard_ok hh
    subst h4
    subst h5
    refine ⟨?_, by simp⟩
    obtain ⟨c1, hc1, hrest1⟩ := runActsList_cons_ok hrun
    have hnil := runActsList_nil_ok hrest1
    subst hnil
    have hb : ctx2.blocker = ctx.blocker := runAct_blocker hc1 (by simp) (by simp)
    have h0 : payCount ([] ++ entrySeq SName.ExecCounterReveal) = 0 := rfl
    rw [h0]
    show 0 + (if ctx2.blocker.isSome = true then 0 else 1)
      ≤ (if ctx.blocker.isSome = true then 0 else 1) + 0
    rw [hb]
    omega
  · -- WaitForBlock + BLOCK → Block
    rename_i p role
    obtain ⟨h4, h5⟩ := mapGuard_ok hh
    subst h4
    subst h5
    refine ⟨Nat.le_refl _, fun _ => ?_⟩
    obtain ⟨c1, hc1, hrest1⟩ := runActsList_cons_ok hrun
    have hnil := runActsList_nil_ok hrest1
    subst hnil
    simp only [runAct, setBlockerFn, Except.ok.injEq] at hc1
    rw [← hc1]
    rfl
  · -- WaitForBlock + ALLOW → FinishAction
    rename_i p
    obtain ⟨h4, h5⟩ := mapGuard_ok hh
    subst h4
    subst h5
    exact ⟨Nat.le_refl _, by simp⟩
  · -- RevealOnAction + REVEAL → EndOfTurn {revealInfluence}
    rename_i p role
    obtain ⟨h4, h5⟩ := mapGuard_ok hh
    subst h4
    subst h5
    exact ⟨Nat.le_refl _, by simp⟩
  · exact absurd hh (by simp)

theorem transition_phi {s : MState} {e : Event} {s' : MState} {log : List ActName}
    (h : transition s e = .ok (s', log)) (hinv : BlockInv s) :
    payCount log + payPotential s'.name s'.ctx
      ≤ payPotential s.name s.ctx + (if isActionEvent e then 1 else 0)
    ∧ BlockInv s' := by
  unfold transition at h
  split at h
  · cases h
    exact ⟨by simp [payCount], hinv⟩
  · exact absurd h (by simp)
  · rename_i tgt transActs hh
    split at h
    · exact absurd h (by simp)
    · rename_i ctx2 hrun
      split at h
      · exact absurd h (by simp)
      · rename_i name2 ctx3 log2 hres
        cases h
        have hev := handleEvent_phi hh hrun hinv
        have hra := resolveAlways_phi hres
        constructor
        · have h1 := hra.1
          have h2 := hev.1
          simp only at h1 ⊢
          omega
        · intro hb
          obtain ⟨hb1, hb2⟩ := hra.2 hb
          subst hb1
          have hb3 : ctx3 = ctx2 := hb2
          show ctx3.blocker.isSome = true
          rw [hb3]
          exact hev.2 rfl

theorem run_phi :
    ∀ {es : List Event} {s s' : MState} {log : List ActName},
      run s es = .ok (s', log) → BlockInv s →
      payCount log + payPotential s'.name s'.ctx
        ≤ payPotential s.name s.ctx + (es.countP isActionEvent)
      ∧ BlockInv s' := by
  intro es
  induction es with
  | nil =>
    intro s s' log h hinv
    cases h
    refine ⟨?_, hinv⟩
    simp [payCount]
  | cons e rest ih =>
    intro s s' log h hinv
    unfold run at h
    split at h
    · exact absurd h (by simp)
    · rename_i s1 log1 ht
      split at h
      · exact absurd h (by simp)
      · rename_i s2 log2 hr
        cases h
        have h1 := transition_phi ht hinv
        have h2 := ih hr h1.2
        refine ⟨?_, h2.2⟩
        have hla : payCount (log1 ++ log2) = payCount log1 + payCount log2 :=
          payCount_append log1 log2
        have hcount : (e :: rest).countP isActionEvent
            = (if isActionEvent e then 1 else 0) + rest.countP isActionEvent := by
          rw [List.countP_cons]
          omega
        rw [hla, hcount]
        have h3 := h1.1
        have h4 := h2.1
        omega

---- Lemmas: auto-reveal reveals the sole unrevealed role

theorem adjustAt_cons_succ (i : Nat) (f : α → α) (x : α) (xs : List α) :
    adjustAt (i + 1) f (x :: xs) = x :: adjustAt i f xs := by
  unfold adjustAt
  rw [List.get?_cons_succ]
  cases h : xs.get? i with
  | none => rfl
  | some v => rfl

theorem reveal_sole_list :
    ∀ (l : List Influence) (ρ : Role),
      (l.filter (fun inf => !inf.revealed)).length = 1 →
      (l.find? (fun inf => !inf.revealed)).map (fun inf => inf.role) = some ρ →
      ∃ i, findIdxA (fun inf => decide (inf = ⟨ρ, false⟩)) l = some i ∧
        ((adjustAt i (fun inf => { inf with revealed := true }) l).filter
          (fun inf => !inf.revealed)).length = 0 := by
  intro l
  induction l with
  | nil => intro ρ h1 h2; simp at h2
  | cons x xs ih =>
    intro ρ h1 h2
    cases hxr : x.revealed with
    | true =>
      have hpx : (!x.revealed) = false := by simp [hxr]
      rw [List.filter_cons_of_neg (by simp [hpx])] at h1
      rw [List.find?_cons_of_neg _ (by simp [hpx])] at h2
      have hne : decide (x = (⟨ρ, false⟩ : Influence)) = false := by
        simp only [decide_eq_false_iff_not]
        intro hEq
        rw [hEq] at hxr
        simp at hxr
      obtain ⟨i, hi, hlen⟩ := ih ρ h1 h2
      refine ⟨i + 1, ?_, ?_⟩
      · simp [findIdxA, hne, hi]
      · rw [adjustAt_cons_succ]
        rw [List.filter_cons_of_neg (by simp [hpx])]
        exact hlen
    | false =>
      have hpx : (!x.revealed) = true := by simp [hxr]
      rw [List.find?_cons_of_pos _ (by simp [hpx])] at h2
      have h2r : x.role = ρ := by simpa using h2
      have hx : x = (⟨ρ, false⟩ : Influence) := by
        cases x with
        | mk xr xv =>
          simp only [Influence.mk.injEq]
          exact ⟨h2r, hxr⟩
      refine ⟨0, ?_, ?_⟩
      · simp [findIdxA, hx]
      · rw [List.filter_cons_of_pos (by simp [hpx])] at h1
        simp only [List.length_cons, Nat.add_left_eq_self] at h1
        unfold adjustAt
        simp only [List.get?_cons_zero, List.set]
        rw [List.filter_cons_of_neg (by simp)]
        simpa using h1

theorem reveal_sole {p : Player} {ρ : Role}
    (h1 : Player.countInf p = 1) (h2 : Player.getFirstRole p = some ρ) :
    ∃ p2, Player.revealRole ρ p = .ok p2 ∧ Player.countInf p2 = 0 := by
  obtain ⟨i, hi, hlen⟩ := reveal_sole_list p.influence ρ h1 h2
  refine ⟨{ p with influence := adjustAt i (fun inf => { inf with revealed := true }) p.influence }, ?_, ?_⟩
  · unfold Player.revealRole
    rw [hi]
  · unfold Player.countInf
    simpa using hlen

---- Claim theorems

/-- C1 (counterexample): the quantity of spec P1 — deck length plus the total
count of UNREVEALED influence — is not preserved: after player 0's tax claim
is correctly challenged and player 0 reveals a captain, the sum drops from 19
to 18 (the reveal removes a card from the unrevealed count while the deck is
untouched). -/
theorem c1_counterexample_reveal_decreases_sum :
    deckPlusUnrevealed (initialState ctxTwo).ctx = 19 ∧
    ((run (initialState ctxTwo)
        [.action 0 "tax" none, .challenge 1, .reveal 0 "captain"]).toOption.map
      (fun r => deckPlusUnrevealed r.1.ctx)) = some 18 :=
  ⟨rfl, rfl⟩

/-- C1 (amended): what every transition does preserve is the closed system of
cards — deck length plus the total number of influence slots (revealed or
not) over all players; revealInfluence flips a flag in place and
replaceInfluence's push/shuffle/pop/swap nets to zero.  Hence the quantity
equals its value in the initial state in every reachable state. -/
theorem c1_total_slots_invariant (s : MState) (es : List Event) (s' : MState)
    (log : List ActName) (h : run s es = .ok (s', log)) :
    totalCards s'.ctx = totalCards s.ctx :=
  run_totalCards h

theorem c1_total_slots_invariant_witness :
    totalCards (MState.mk SName.StartOfTurn
      { ctxTwo with
          whoseTurn := 1,
          players := [mkPlayer 3 "duke" "captain" false false,
                      mkPlayer 2 "assassin" "duke" false false] }).ctx
      = totalCards (initialState ctxTwo).ctx :=
  c1_total_slots_invariant (initialState ctxTwo) [.action 0 "income" none]
    (MState.mk SName.StartOfTurn
      { ctxTwo with
          whoseTurn := 1,
          players := [mkPlayer 3 "duke" "captain" false false,
                      mkPlayer 2 "assassin" "duke" false false] })
    [.setCurrentAction, .clearRevealer, .applyAction, .advanceTurn, .resetContext]
    (by rfl)

/-- C2: over any accepted event sequence, the number of payActionCost
executions is bounded by the starting state's remaining pay budget (at most
1) plus the number of ACTION events; in particular, within one turn — from
the ACTION event that sets current_action (after which the budget is 1 and no
further ACTION is accepted until the next turn) until the turn ends — the
active player is charged cost(current_action) at most once, whether the
charge happens on BLOCK or ALLOW out of WaitForResponse or on entry to
WaitForBlock, and never on two of these. -/
theorem c2_pay_at_most_once (s : MState) (es : List Event) (s' : MState)
    (log : List ActName) (h : run s es = .ok (s', log)) (hinv : BlockInv s) :
    payCount log ≤ payPotential s.name s.ctx + es.countP isActionEvent := by
  have h1 := (run_phi h hinv).1
  omega

theorem c2_pay_at_most_once_witness :
    payCount [ActName.setCurrentAction, ActName.payActionCost, ActName.clearRevealer,
      ActName.applyAction, ActName.advanceTurn, ActName.resetContext]
      ≤ payPotential (initialState ctxTwo).name (initialState ctxTwo).ctx
        + ([Event.action 0 "tax" none, Event.allow 1].countP isActionEvent) :=
  c2_pay_at_most_once (initialState ctxTwo) [.action 0 "tax" none, .allow 1]
    (MState.mk SName.StartOfTurn
      { ctxTwo with
          whoseTurn := 1,
          players := [mkPlayer 5 "duke" "captain" false false,
                      mkPlayer 2 "assassin" "duke" false false] })
    [.setCurrentAction, .payActionCost, .clearRevealer, .applyAction,
     .advanceTurn, .resetContext]
    (by rfl) (by intro hB; exact absurd hB (by decide))

/-- C3 (code_bug evidence): from a three-player game in which player 0
assassinates player 1 twice (unchallenged), the auto-reveal kills player 1
and EndOfTurn resolves to StartOfTurn with whose_turn = 1 — a dead player —
although the game is not over: advanceTurn advances modulo all players and
does not skip the dead (the source carries the unresolved
`todo: living players`). -/
theorem c3_turn_advances_to_dead_player :
    ((run (initialState ctxThree) killP1Events).toOption.map
      (fun r => (r.1.name, r.1.ctx.whoseTurn,
        Player.isDead (ctxPlayer r.1.ctx 1), Game.isOver r.1.ctx)))
      = some (SName.StartOfTurn, 1, true, false) :=
  rfl

/-- C4: on entry to ExecRevealOnChallenge the eventless branch fires in
listed order: ChallengeIncorrect when the challenge was incorrect — which
means is_blocked_by(current_action, revealed_role) when a blocker is set and
role_allows_action(revealed_role, current_action) otherwise — else
FinishAction when a blocker is set, else EndOfTurn. -/
theorem c4_exec_reveal_branch_order (ctx : Context) :
    selectAlways .ExecRevealOnChallenge ctx =
      some (if (match ctx.blocker with
            | some _ => ctx.gdef.isBlockedBy (ctx.currentAction.getD "")
                (ctx.revealedRole.getD "")
            | none => ctx.gdef.ifRoleAllowsAction (ctx.revealedRole.getD "")
                (ctx.currentAction.getD "")) = true
        then (SName.ChallengeIncorrect, ([] : List ActName))
        else if ctx.blocker.isSome = true then (SName.FinishAction, ([] : List ActName))
        else (SName.EndOfTurn, ([] : List ActName))) := by
  have hinc : ifChallengeIncorrect ctx = (match ctx.blocker with
      | some _ => ctx.gdef.isBlockedBy (ctx.currentAction.getD "")
          (ctx.revealedRole.getD "")
      | none => ctx.gdef.ifRoleAllowsAction (ctx.revealedRole.getD "")
          (ctx.currentAction.getD "")) := rfl
  show (if ifChallengeIncorrect ctx = true
        then some (SName.ChallengeIncorrect, ([] : List ActName))
        else if ifActionWasBlocked ctx = true
        then some (SName.FinishAction, ([] : List ActName))
        else some (SName.EndOfTurn, ([] : List ActName))) = _
  rw [hinc]
  unfold ifActionWasBlocked
  by_cases h1 : (match ctx.blocker with
      | some _ => ctx.gdef.isBlockedBy (ctx.currentAction.getD "")
          (ctx.revealedRole.getD "")
      | none => ctx.gdef.ifRoleAllowsAction (ctx.revealedRole.getD "")
          (ctx.currentAction.getD "")) = true
  · simp [h1]
  · by_cases h2 : ctx.blocker.isSome = true
    · simp [h1, h2]
    · simp [h1, h2]

/-- C5: in each of Challenge, ChallengeIncorrect and RevealOnAction, a
revealer holding exactly one unrevealed influence (whose sole unrevealed role
is ρ) makes the eventless transition fire without a REVEAL event — to
ExecRevealOnChallenge, ExecCounterReveal and EndOfTurn respectively — and the
role revealed is exactly ρ: the null event carries no role, so
revealInfluence falls back to the player's first (sole) unrevealed role. -/
theorem c5_auto_reveal_sole_role (ctx : Context) (r : Nat) (ρ : Role)
    (hrev : ctx.revealer = some r)
    (hone : Player.countInf (ctxPlayer ctx r) = 1)
    (hrole : Player.getFirstRole (ctxPlayer ctx r) = some ρ) :
    ∃ p2, Player.revealRole ρ (ctxPlayer ctx r) = .ok p2 ∧ Player.countInf p2 = 0 ∧
      alwaysStep .Challenge ctx = some (.ok (.ExecRevealOnChallenge,
        { (ctxSetPlayer ctx r p2) with revealedRole := some ρ }, [.revealInfluence])) ∧
      alwaysStep .ChallengeIncorrect ctx = some (.ok (.ExecCounterReveal,
        { (ctxSetPlayer ctx r p2) with revealedRole := some ρ }, [.revealInfluence])) ∧
      alwaysStep .RevealOnAction ctx = some (.ok (.EndOfTurn,
        { (ctxSetPlayer ctx r p2) with revealedRole := some ρ }, [.revealInfluence])) := by
  obtain ⟨p2, hrr, hcnt⟩ := reveal_sole hone hrole
  have hauto : ifAutoReveal ctx = true := by
    unfold ifAutoReveal
    rw [hrev]
    unfold Game.playerHasNInf Player.hasNInf
    simp [hone]
  have htr : revealTargetRole ctx r none = ρ := by
    unfold revealTargetRole eventRole
    simp [hrole]
  have hreveal : revealInfluenceFn ctx none
      = .ok { (ctxSetPlayer ctx r p2) with revealedRole := some ρ } := by
    unfold revealInfluenceFn
    rw [hrev]
    show (match Player.revealRole (revealTargetRole ctx r none) (ctxPlayer ctx r) with
      | Except.error m => Except.error m
      | Except.ok p3 => Except.ok { (ctxSetPlayer ctx r p3) with
          revealedRole := some (revealTargetRole ctx r none) })
      = Except.ok { (ctxSetPlayer ctx r p2) with revealedRole := some ρ }
    rw [htr, hrr]
  have hrl : runActsList [ActName.revealInfluence] none ctx
      = .ok { (ctxSetPlayer ctx r p2) with revealedRole := some ρ } := by
    unfold runActsList runAct
    rw [hreveal]
    rfl
  refine ⟨p2, hrr, hcnt, ?_, ?_, ?_⟩
  · show (match selectAlways SName.Challenge ctx with
      | none => none
      | some (tgt, transActs) =>
        some ((runActsList (transActs ++ entrySeq tgt) none ctx).map
          (fun ctx2 => (tgt, ctx2, transActs ++ entrySeq tgt)))) = _
    show (match (if ifAutoReveal ctx = true
        then some (SName.ExecRevealOnChallenge, ([] : List ActName)) else none) with
      | none => none
      | some (tgt, transActs) =>
        some ((runActsList (transActs ++ entrySeq tgt) none ctx).map
          (fun ctx2 => (tgt, ctx2, transActs ++ entrySeq tgt)))) = _
    rw [hauto]
    show some ((runActsList [ActName.revealInfluence] none ctx).map
      (fun ctx2 => (SName.ExecRevealOnChallenge, ctx2, [ActName.revealInfluence]))) = _
    rw [hrl]
    rfl
  · show (match (if ifAutoReveal ctx = true
        then some (SName.ExecCounterReveal, ([] : List ActName)) else none) with
      | none => none
      | some (tgt, transActs) =>
        some ((runActsList (transActs ++ entrySeq tgt) none ctx).map
          (fun ctx2 => (tgt, ctx2, transActs ++ entrySeq tgt)))) = _
    rw [hauto]
    show some ((runActsList [ActName.revealInfluence] none ctx).map
      (fun ctx2 => (SName.ExecCounterReveal, ctx2, [ActName.revealInfluence]))) = _
    rw [hrl]
    rfl
  · show (match (if ifAutoReveal ctx = true
        then some (SName.EndOfTurn, [ActName.revealInfluence]) else none) with
      | none => none
      | some (tgt, transActs) =>
        some ((runActsList (transActs ++ entrySeq tgt) none ctx).map
          (fun ctx2 => (tgt, ctx2, transActs ++ entrySeq tgt)))) = _
    rw [hauto]
    show some ((runActsList [ActName.revealInfluence] none ctx).map
      (fun ctx2 => (SName.EndOfTurn, ctx2, [ActName.revealInfluence]))) = _
    rw [hrl]
    rfl

theorem c5_auto_reveal_sole_role_witness :
    ∃ p2, Player.revealRole "contessa"
        (ctxPlayer { ctxTwo with
          revealer := some 0,
          players := [mkPlayer 2 "duke" "contessa" true false,
                      mkPlayer 3 "captain" "duke" true false] } 0) = .ok p2
      ∧ Player.countInf p2 = 0 ∧
      alwaysStep .Challenge { ctxTwo with
          revealer := some 0,
          players := [mkPlayer 2 "duke" "contessa" true false,
                      mkPlayer 3 "captain" "duke" true false] }
        = some (.ok (.ExecRevealOnChallenge,
          { (ctxSetPlayer { ctxTwo with
              revealer := some 0,
              players := [mkPlayer 2 "duke" "contessa" true false,
                          mkPlayer 3 "captain" "duke" true false] } 0 p2) with
            revealedRole := some "contessa" }, [.revealInfluence])) ∧
      alwaysStep .ChallengeIncorrect { ctxTwo with
          revealer := some 0,
          players := [mkPlayer 2 "duke" "contessa" true false,
                      mkPlayer 3 "captain" "duke" true false] }
        = some (.ok (.ExecCounterReveal,
          { (ctxSetPlayer { ctxTwo with
              revealer := some 0,
              players := [mkPlayer 2 "duke" "contessa" true false,
                          mkPlayer 3 "captain" "duke" true false] } 0 p2) with
            revealedRole := some "contessa" }, [.revealInfluence])) ∧
      alwaysStep .RevealOnAction { ctxTwo with
          revealer := some 0,
          players := [mkPlayer 2 "duke" "contessa" true false,
                      mkPlayer 3 "captain" "duke" true false] }
        = some (.ok (.EndOfTurn,
          { (ctxSetPlayer { ctxTwo with
              revealer := some 0,
              players := [mkPlayer 2 "duke" "contessa" true false,
                          mkPlayer 3 "captain" "duke" true false] } 0 p2) with
            revealedRole := some "contessa" }, [.revealInfluence])) :=
  c5_auto_reveal_sole_role _ 0 "contessa" rfl (by decide) (by decide)

/-- C6: for every u32-valued generator, seed and list, Rand.shuffle returns a
permutation of its input — no element lost or duplicated — and, being a pure
function of the seed and the list, its output list and final seed are
uniquely determined by them. -/
theorem c6_shuffle_permutation_deterministic (ru : Seed → Nat)
    (hru : ∀ s, ru s ≤ UINT32_MAX) (l : List Role) (s : Seed) :
    List.Perm (shuffle ru l s).1 l ∧
      ∀ l2 s2, l2 = l → s2 = s → shuffle ru l2 s2 = shuffle ru l s :=
  ⟨shuffle_perm ru hru l s, fun l2 s2 h1 h2 => by rw [h1, h2]⟩

theorem c6_shuffle_permutation_deterministic_witness :
    List.Perm (shuffle randUint deck0 [1, 2, 3, 4]).1 deck0 ∧
      ∀ l2 s2, l2 = deck0 → s2 = [1, 2, 3, 4] →
        shuffle randUint l2 s2 = shuffle randUint deck0 [1, 2, 3, 4] :=
  c6_shuffle_permutation_deterministic randUint randUint_le deck0 [1, 2, 3, 4]

/-- C7: when the guard of the handler selected for an event rejects it by
raising, GameMachine.transition reports exactly that error to the caller;
because transition is value-returning and the guard runs before any context
mutation, the caller's state is unchanged and the event is not silently
consumed. -/
theorem c7_guard_rejection_raises (s : MState) (e : Event) (m : String)
    (h : handleEvent s.name s.ctx e = some (.error m)) :
    transition s e = .error m := by
  unfold transition
  rw [h]

theorem c7_guard_rejection_raises_witness :
    transition (initialState ctxTwo) (.action 1 "income" none)
      = .error "ACTION event not allowed from player 1" :=
  c7_guard_rejection_raises (initialState ctxTwo) (.action 1 "income" none)
    "ACTION event not allowed from player 1" (by rfl)

/-- C8: two runs from equal starting states (same seed, players, deck and
rulebook) on the same event sequence produce identical results, including the
deck order: transition and run are deterministic functions of state and
events. -/
theorem c8_run_deterministic (s1 s2 : MState) (es : List Event) (h : s1 = s2) :
    run s1 es = run s2 es ∧
      ∀ r1 r2, run s1 es = .ok r1 → run s2 es = .ok r2 →
        r1.1.ctx.deck = r2.1.ctx.deck ∧ r1 = r2 := by
  subst h
  refine ⟨rfl, ?_⟩
  intro r1 r2 h1 h2
  rw [h1] at h2
  cases h2
  exact ⟨rfl, rfl⟩

theorem c8_run_deterministic_witness :
    run (initialState ctxTwo) [.action 0 "income" none]
        = run (initialState ctxTwo) [.action 0 "income" none] ∧
      ∀ r1 r2, run (initialState ctxTwo) [.action 0 "income" none] = .ok r1 →
        run (initialState ctxTwo) [.action 0 "income" none] = .ok r2 →
        r1.1.ctx.deck = r2.1.ctx.deck ∧ r1 = r2 :=
  c8_run_deterministic (initialState ctxTwo) (initialState ctxTwo)
    [.action 0 "income" none] rfl

/-- C9 (counterexample): ACTION coup from a player with cash 7 is accepted
and runs applyAction (whose R.cond has no matching branch, returning
undefined), yet the machine is NOT left without a well-defined context: the
macrostep completes into StartOfTurn with the context fully intact except for
the turn advance — xstate's updateContext merges the undefined assigner
result with Object.assign, which skips it. -/
theorem c9_counterexample_coup_context_intact :
    Game.applyAction { ctxCoup with currentAction := some "coup", target := some 1 } = none ∧
    transition (initialState ctxCoup) (.action 0 "coup" (some 1))
      = .ok (MState.mk SName.StartOfTurn { ctxCoup with whoseTurn := 1 },
             [.setCurrentAction, .clearRevealer, .applyAction, .advanceTurn, .resetContext]) :=
  ⟨rfl, rfl⟩

/-- C9 (amended): Game.applyAction is indeed partial — it returns none when
current_action is coup, steal, exchange or interrogate, and a coup reaching
it is accepted through legal events — but the machine keeps a well-defined
context: the assign merge drops the undefined result, so the action is a
silent no-op (coup neither charges its cost nor fells any influence). -/
theorem c9_applyAction_none_silent_noop (ctx : Context) (a : String)
    (h : ctx.currentAction = some a)
    (ha : a = "coup" ∨ a = "steal" ∨ a = "exchange" ∨ a = "interrogate") :
    Game.applyAction ctx = none ∧ applyActionFn ctx = ctx := by
  have hnone : Game.applyAction ctx = none := by
    unfold Game.applyAction
    rcases ha with h1 | h1 | h1 | h1 <;> subst h1 <;> simp [h]
  refine ⟨hnone, ?_⟩
  unfold applyActionFn
  rw [hnone]

theorem c9_applyAction_none_silent_noop_witness :
    Game.applyAction { ctxCoup with currentAction := some "coup", target := some 1 } = none ∧
      applyActionFn { ctxCoup with currentAction := some "coup", target := some 1 }
        = { ctxCoup with currentAction := some "coup", target := some 1 } :=
  c9_applyAction_none_silent_noop
    { ctxCoup with currentAction := some "coup", target := some 1 } "coup" rfl (Or.inl rfl)

/-- C10: event guards validate the sender only as an index into the player
list — assertValidOpponent accepts any in-range player other than the one
whose turn it is, with no liveness check — so in the reachable state after
deadSenderEvents, where player 1 is dead, both CHALLENGE and ALLOW from
player 1 are accepted and the machine transitions on them. -/
theorem c10_guards_ignore_liveness :
    (∀ (ctx : Context) (e : Event), e.player < ctx.players.length →
      e.player ≠ ctx.whoseTurn → assertValidOpponent ctx e = .ok ()) ∧
    ((run (initialState ctxThree) deadSenderEvents).toOption.map
      (fun r => (r.1.name, Player.isDead (ctxPlayer r.1.ctx 1),
        (transition r.1 (.challenge 1)).toOption.map (fun t => t.1.name),
        (transition r.1 (.allow 1)).toOption.map (fun t => t.1.name))))
      = some (SName.WaitForResponse, true, some SName.Challenge, some SName.StartOfTurn) := by
  constructor
  · intro ctx e h1 h2
    unfold assertValidOpponent assertValidPlayer isValidPlayerIdx
    simp [h1, h2]
  · rfl

theorem c10_guards_ignore_liveness_witness :
    assertValidOpponent (initialState ctxThree).ctx (.allow 1) = .ok () :=
  (c10_guards_ignore_liveness).1 (initialState ctxThree).ctx (.allow 1)
    (by decide) (by decide)

end T2